import Mathlib

/-!
Shallow embedding of `tools/generate_manifest.py` from the ABG-Viewer
GitHub-Pages repository.

Modelling conventions:
* JSON values loaded by `json.load` / built by the script are the inductive
  `JValue`; Python dicts are association lists in insertion order with the
  operations `dget` (`dict.get`), `dset` (`d[k] = v`) and `dsetdefault`
  (`dict.setdefault`).
* The filesystem is explicit: the set of files existing under the site root
  is a `List (List String)` of paths (each path a list of components), and a
  scanned source directory is `Option (List FileEntry)` — `none` models a
  nonexistent directory, and the list holds exactly the entries that
  `source_dir.rglob("*.pdf")` would yield, in arbitrary order (the script
  sorts them itself).
* Quantities the script reads from the OS are carried as attributes of
  `FileEntry`: `sha256` stands for the digest `sha256_file` computes by
  streaming the file, `size` for `stat.st_size`, and `mtimeIso` for the
  `iso_z` rendering of the UTC modification time (datetime arithmetic and
  hashing are not re-modelled; only the values flow through the program).
* `print` warnings have no observable effect besides control flow and are
  not modelled.
-/

namespace ABGViewer

/-- JSON-like values: what `json.load` can return and the script builds.
Numbers are restricted to integers (the script only ever stores the integer
`SCHEMA_VERSION` and byte sizes; no claim touches floating point). -/
inductive JValue where
  | str (s : String)
  | int (n : Int)
  | bool (b : Bool)
  | null
  | arr (elems : List JValue)
  | obj (fields : List (String × JValue))
deriving Repr

/-- A Python dict as loaded from JSON: association list in insertion order. -/
abbrev JObj := List (String × JValue)

/-- Generic association-list lookup; models `dict[k]` access / `dict.get(k)`
returning `None` when the key is absent. -/
def alookup (m : List (String × α)) (k : String) : Option α :=
  (m.find? (fun kv => kv.1 == k)).map (fun kv => kv.2)

/-- `d.get(k)` on a JSON object. -/
def dget (d : JObj) (k : String) : Option JValue :=
  alookup d k

/-- `d[k] = v`: replace the value at an existing key in place, else append. -/
def dset (d : JObj) (k : String) (v : JValue) : JObj :=
  match d with
  | [] => [(k, v)]
  | (k', v') :: rest => if k' == k then (k, v) :: rest else (k', v') :: dset rest k v

/-- `d.setdefault(k, v)`: insert `v` at `k` only when `k` is absent. -/
def dsetdefault (d : JObj) (k : String) (v : JValue) : JObj :=
  if (dget d k).isSome then d else d ++ [(k, v)]

/-- The apostrophe character, used by Python `repr` to quote strings. -/
def squote : String := String.singleton (Char.ofNat 39)

mutual

/-- Python `repr` of a JSON value (escaping of special characters inside
quoted strings is elided; the script never feeds container or quoted values
through this path in any behaviour a claim exercises). -/
def pyRepr : JValue → String
  | .str s => squote ++ s ++ squote
  | .int n => toString n
  | .bool b => if b then "True" else "False"
  | .null => "None"
  | .arr xs => "[" ++ String.intercalate ", " (pyReprList xs) ++ "]"
  | .obj kvs => "\x7b" ++ String.intercalate ", " (pyReprPairs kvs) ++ "\x7d"

def pyReprList : List JValue → List String
  | [] => []
  | x :: xs => pyRepr x :: pyReprList xs

def pyReprPairs : List (String × JValue) → List String
  | [] => []
  | (k, v) :: kvs => (squote ++ k ++ squote ++ ": " ++ pyRepr v) :: pyReprPairs kvs

end

/-- Python `str(...)` applied to a JSON value, as in `str(a.get("iata", ""))`:
the identity on strings, `repr` otherwise. -/
def pyStr : JValue → String
  | .str s => s
  | v => pyRepr v

/-- Codepoint-wise lexicographic comparison of character lists; the order
Python uses to compare the path strings fed to `sorted`. -/
def charListLe : List Char → List Char → Bool
  | [], _ => true
  | _ :: _, [] => false
  | a :: as, b :: bs => if a < b then true else if b < a then false else charListLe as bs

/-- String comparison used by `sorted(pdfs.items(), key=lambda kv: kv[0])`
(on identifier strings); also the plain flat lexicographic order on path
strings, which is *not* how Python sorts `Path` objects. -/
def strLe (a b : String) : Bool := charListLe a.data b.data

/-- Codepoint-wise strict comparison of character lists: Python `str.__lt__`
on path components. -/
def charListLt : List Char → List Char → Bool
  | [], [] => false
  | [], _ :: _ => true
  | _ :: _, [] => false
  | a :: as, b :: bs => if a < b then true else if b < a then false else charListLt as bs

/-- Lexicographic order on component sequences: Python `list.__lt__` over
string components, as `PurePath.__lt__` compares `_cparts`. (Reflexive
variant: `partsLe a b` is "a comes no later than b".) -/
def partsLe : List (List Char) → List (List Char) → Bool
  | [], _ => true
  | _ :: _, [] => false
  | a :: as, b :: bs =>
      if charListLt a b then true else if charListLt b a then false else partsLe as bs

/-- Split a path string into its `/`-separated components. The paths the
scanner compares all come from `source_dir.rglob`, so they are well-formed
(no repeated separators) and share the same root prefix; for such paths
this matches `PurePath._cparts` up to a constant shared prefix. -/
def splitSlash : List Char → List (List Char)
  | [] => [[]]
  | c :: cs =>
      match splitSlash cs with
      | [] => [[]]
      | w :: ws => if c = '/' then [] :: w :: ws else (c :: w) :: ws

/-- CPython `PurePath` ordering on path strings: compare the component
sequences (`_cparts`) lexicographically, each component as a string. This
is the order `sorted(source_dir.rglob("*.pdf"))` iterates in. -/
def purePathLe (a b : String) : Bool :=
  partsLe (splitSlash a.data) (splitSlash b.data)

/-- Insert into a sorted list, keeping earlier elements first among equals. -/
def insertLe (le : α → α → Bool) (x : α) : List α → List α
  | [] => [x]
  | y :: ys => if le x y then x :: y :: ys else y :: insertLe le x ys

/-- Stable sort: the model of Python's `sorted`. -/
def sortLe (le : α → α → Bool) : List α → List α
  | [] => []
  | x :: xs => insertLe le x (sortLe le xs)

/-- Python `str.strip()`: drop leading and trailing whitespace. -/
def pyStrip (s : String) : String :=
  String.mk (((s.data.dropWhile Char.isWhitespace).reverse.dropWhile Char.isWhitespace).reverse)

/-- Python `str.upper()` (the script only relies on ASCII behaviour). -/
def pyUpper (s : String) : String := String.mk (s.data.map Char.toUpper)

/-- Python `str.endswith(suffix)`. -/
def pyEndsWith (s suffix : String) : Bool := suffix.data.isSuffixOf s.data

/-- `safe_iata_from_filename`: the filename stem, whitespace-stripped and
uppercased. -/
def safe_iata_from_filename (stem : String) : String :=
  pyUpper (pyStrip stem)

/-- `ensure_trailing_slash`. -/
def ensure_trailing_slash (url : String) : String :=
  if pyEndsWith url "/" then url else url ++ "/"

/-- The dataclass `PdfInfo`. `mtimeIso` carries `iso_z(mtime)`. -/
structure PdfInfo where
  iata : String
  src_path : String
  sha256 : String
  size : Nat
  mtimeIso : String
deriving Repr, DecidableEq

/-- One entry yielded by `source_dir.rglob("*.pdf")`: its full path string,
its filename stem (`Path.stem`), whether it is a regular file, and the
OS-derived attributes the script reads from it. -/
structure FileEntry where
  path : String
  stem : String
  isFile : Bool
  sha256 : String
  size : Nat
  mtimeIso : String
deriving Repr, DecidableEq

/-- The errors the script can raise. Messages keep the literal text; the
f-string interpolation of concrete paths is elided. -/
inductive ScriptError where
  | fileNotFound (msg : String)
  | runtimeError (msg : String)
  | valueError (msg : String)
  | attributeError (msg : String)
deriving Repr, DecidableEq

/-- The `PdfInfo` built in the loop body of `scan_pdfs` for file `f` under
identifier `iata`. -/
def mkPdfInfo (f : FileEntry) (iata : String) : PdfInfo :=
  { iata := iata
    src_path := f.path
    sha256 := f.sha256
    size := f.size
    mtimeIso := f.mtimeIso }

/-- Ordering of scan results: CPython `Path` order on the paths, as
`sorted` orders the `rglob` output. -/
def pathLe (a b : FileEntry) : Bool := purePathLe a.path b.path

/-- The body of the `for p in sorted(source_dir.rglob("*.pdf"))` loop in
`scan_pdfs`, acting on the accumulated `pdf_map` (insertion-ordered). -/
def scanStep (m : List (String × PdfInfo)) (p : FileEntry) : List (String × PdfInfo) :=
  if !p.isFile then m
  else
    let iata := safe_iata_from_filename p.stem
    if iata = "" then m
    else if (alookup m iata).isSome then
      -- WARN: duplicate IATA; keep the existing record, skip `p`.
      m
    else m ++ [(iata, mkPdfInfo p iata)]

/-- `scan_pdfs`: `none` for a nonexistent source directory raises
`FileNotFoundError`; an empty resulting map raises `RuntimeError`. -/
def scan_pdfs (source_dir : Option (List FileEntry)) :
    Except ScriptError (List (String × PdfInfo)) :=
  match source_dir with
  | none => .error (.fileNotFound "source-pdfs folder not found")
  | some files =>
      let pdf_map := (sortLe pathLe files).foldl scanStep []
      if pdf_map.isEmpty then .error (.runtimeError "No PDFs found under source dir")
      else .ok pdf_map

/-- The relative destination `Path("pdfs") / pdf.iata / f"{pdf.sha256}.pdf"`,
as a list of components. -/
def immutableRel (pdf : PdfInfo) : List String :=
  ["pdfs", pdf.iata, pdf.sha256 ++ ".pdf"]

/-- `Path.as_posix` on a component list. -/
def posixJoin (p : List String) : String := String.intercalate "/" p

/-- `copy_pdf_to_immutable_path`: ensure the file exists at the
content-addressed destination under the site root (skipping the copy when
the destination already exists) and return the relative URL path.
`fs` is the set of files existing under the output tree; directory creation
(`mkdir(parents=True, exist_ok=True)`) is idempotent and not tracked. -/
def copy_pdf_to_immutable_path (site_root : List String) (fs : List (List String))
    (pdf : PdfInfo) : List (List String) × String :=
  let rel := immutableRel pdf
  let dst := site_root ++ rel
  if fs.contains dst then
    -- If it exists, assume it is correct (immutable by sha); avoid re-copying.
    (fs, posixJoin rel)
  else
    (dst :: fs, posixJoin rel)

/-- `normalize_airport_dict`: copy the dict, force `iata`, default the
missing descriptive fields. -/
def normalize_airport_dict (airport : JObj) (iata : String) : JObj :=
  let out := dset airport "iata" (.str iata)
  let out := dsetdefault out "icao" (.str iata)
  let out := dsetdefault out "name" (.str iata)
  let out := dsetdefault out "city" (.str "")
  out

/-- `SCHEMA_VERSION`. -/
def SCHEMA_VERSION : Int := 1

/-- The `"pdf"` block attached to each manifest entry. -/
def pdfBlock (rel_url : String) (pdf : PdfInfo) : JValue :=
  .obj [("url", .str rel_url),
        ("sha256", .str pdf.sha256),
        ("size", .int pdf.size),
        ("updatedAt", .str pdf.mtimeIso),
        ("version", .str (pdf.mtimeIso.take 10))]

/-- The normalized identifier the template loop derives from a raw template
entry: `str(a.get("iata", "")).strip().upper()`. -/
def templateIata (ad : JObj) : String :=
  pyUpper (pyStrip (pyStr ((dget ad "iata").getD (.str ""))))

/-- The manifest entry the template loop produces for one template item, or
`none` when the item is skipped (not a dict, blank identifier, or no scanned
PDF for its identifier). The emitted entry does not depend on the filesystem
state, only on the matched record. -/
def templateEntryOf (pdfs : List (String × PdfInfo)) (a : JValue) : Option JObj :=
  match a with
  | .obj ad =>
      let iata := templateIata ad
      if iata = "" then none
      else
        match alookup pdfs iata with
        | none => none  -- WARN: template airport has no PDF; skip it.
        | some pdf =>
            let a2 := normalize_airport_dict ad iata
            some (dset a2 "pdf" (pdfBlock (posixJoin (immutableRel pdf)) pdf))
  | _ => none

/-- The body of the `for a in template_airports` loop in `build_manifest`,
threading the output filesystem and the accumulated `airports_out`. -/
def templateStep (site_root : List String) (pdfs : List (String × PdfInfo))
    (acc : List (List String) × List JObj) (a : JValue) :
    List (List String) × List JObj :=
  match a with
  | .obj ad =>
      let iata := templateIata ad
      if iata = "" then acc
      else
        match alookup pdfs iata with
        | none => acc
        | some pdf =>
            let (fs', rel_url) := copy_pdf_to_immutable_path site_root acc.1 pdf
            let a2 := normalize_airport_dict ad iata
            (fs', acc.2 ++ [dset a2 "pdf" (pdfBlock rel_url pdf)])
  | _ => acc

/-- The minimal entry built from filenames only (the `else` branch of
`build_manifest`), for dict key `iata` and record `pdf`. -/
def minimalEntry (iata : String) (rel_url : String) (pdf : PdfInfo) : JObj :=
  [("iata", .str iata),
   ("icao", .str iata),
   ("name", .str iata),
   ("city", .str ""),
   ("pdf", pdfBlock rel_url pdf)]

/-- The body of the `for iata, pdf in sorted(pdfs.items())` loop. -/
def minimalStep (site_root : List String)
    (acc : List (List String) × List JObj) (kv : String × PdfInfo) :
    List (List String) × List JObj :=
  let (fs', rel_url) := copy_pdf_to_immutable_path site_root acc.1 kv.2
  (fs', acc.2 ++ [minimalEntry kv.1 rel_url kv.2])

/-- Ordering of `pdfs.items()` by key. -/
def keyLe (a b : String × PdfInfo) : Bool := strLe a.1 b.1

/-- The `airports_out` assembly of `build_manifest`: the template branch
(validating the top-level `airports` list — `template.get` on a non-object
raises `AttributeError`, a missing or non-list `airports` raises
`ValueError`) or the minimal branch over the identifier-sorted scan map. -/
def build_airports (pdfs : List (String × PdfInfo)) (site_root : List String)
    (fs : List (List String)) (template : Option JValue) :
    Except ScriptError (List (List String) × List JObj) :=
  match template with
  | some t =>
      match t with
      | .obj tf =>
          match dget tf "airports" with
          | some (.arr template_airports) =>
              .ok (template_airports.foldl (templateStep site_root pdfs) (fs, []))
          | _ => .error (.valueError "Template manifest must contain an airports array.")
      | _ => .error (.attributeError "template JSON root is not an object")
  | none =>
      .ok ((sortLe keyLe pdfs).foldl (minimalStep site_root) (fs, []))

/-- `build_manifest`: assemble `airports_out`, then the root object, with
`baseURL` appended only when `base_url` is truthy (Python `if base_url:`
is false for `None` and for the empty string). `nowIso` is
`iso_z(datetime.now(timezone.utc))` taken at build time. -/
def build_manifest (pdfs : List (String × PdfInfo)) (site_root : List String)
    (fs : List (List String)) (base_url : Option String) (template : Option JValue)
    (nowIso : String) : Except ScriptError (List (List String) × JObj) :=
  match build_airports pdfs site_root fs template with
  | .error e => .error e
  | .ok (fs', airports_out) =>
      let manifest : JObj :=
        [("schemaVersion", .int SCHEMA_VERSION),
         ("generatedAt", .str nowIso),
         ("airports", .arr (airports_out.map .obj))]
      let manifest :=
        match base_url with
        | some u => if u = "" then manifest
                    else manifest ++ [("baseURL", .str (ensure_trailing_slash u))]
        | none => manifest
      .ok (fs', manifest)

/-- Hexadecimal digit, for `\uXXXX` escapes. -/
def hexDigit (n : Nat) : Char :=
  if n < 10 then Char.ofNat (48 + n) else Char.ofNat (97 + (n - 10))

/-- JSON string escaping as `json.dump` performs it with
`ensure_ascii=False`: only the quote, backslash and control characters are
escaped; everything else is written literally. -/
def jsonEscapeChar (c : Char) : String :=
  if c = '"' then "\\\""
  else if c = '\\' then "\\\\"
  else if c = '\n' then "\\n"
  else if c = '\t' then "\\t"
  else if c = '\r' then "\\r"
  else if c = Char.ofNat 8 then "\\b"
  else if c = Char.ofNat 12 then "\\f"
  else if c.toNat < 32 then
    "\\u00" ++ String.mk [hexDigit (c.toNat / 16), hexDigit (c.toNat % 16)]
  else String.singleton c

/-- A JSON string literal. -/
def jsonQuote (s : String) : String :=
  "\"" ++ String.join (s.data.map jsonEscapeChar) ++ "\""

/-- `2 * lvl` spaces: the `indent=2` prefix at nesting level `lvl`. -/
def jsonIndent (lvl : Nat) : String := String.mk (List.replicate (2 * lvl) ' ')

mutual

/-- `json.dumps(v, indent=2, ensure_ascii=False)` at nesting level `lvl`. -/
def jsonDump (lvl : Nat) : JValue → String
  | .str s => jsonQuote s
  | .int n => toString n
  | .bool b => if b then "true" else "false"
  | .null => "null"
  | .arr [] => "[]"
  | .arr (x :: xs) =>
      "[\n" ++ String.intercalate ",\n"
        ((jsonDumpList lvl (x :: xs)).map (fun s => jsonIndent (lvl + 1) ++ s))
      ++ "\n" ++ jsonIndent lvl ++ "]"
  | .obj [] => "\x7b\x7d"
  | .obj (kv :: kvs) =>
      "\x7b\n" ++ String.intercalate ",\n"
        ((jsonDumpPairs lvl (kv :: kvs)).map (fun s => jsonIndent (lvl + 1) ++ s))
      ++ "\n" ++ jsonIndent lvl ++ "\x7d"

def jsonDumpList (lvl : Nat) : List JValue → List String
  | [] => []
  | x :: xs => jsonDump (lvl + 1) x :: jsonDumpList lvl xs

def jsonDumpPairs (lvl : Nat) : List (String × JValue) → List String
  | [] => []
  | (k, v) :: kvs => (jsonQuote k ++ ": " ++ jsonDump (lvl + 1) v) :: jsonDumpPairs lvl kvs

end

/-- The bytes `write_json` leaves at its destination: the dump plus the
trailing newline (the temp-file-then-rename dance is atomic and leaves
exactly this content at the final path). -/
def write_json_content (obj : JValue) : String :=
  jsonDump 0 obj ++ "\n"

/-- Record a written file path in the output tree. -/
def fsAdd (fs : List (List String)) (p : List String) : List (List String) :=
  if fs.contains p then fs else p :: fs

/-- The observable outcome of a successful `main` run. -/
structure MainOk where
  fs : List (List String)
  latestPath : List String
  versionedPath : List String
  latestContent : String
  versionedContent : String
  exitCode : Nat
deriving Repr

/-- `main`, after argument parsing: scan, build, then write the latest
manifest and the timestamped snapshot. Returns the final output tree paired
with either the raised error (in which case the tree is unchanged: every
raise in `scan_pdfs` and the validation raise in `build_manifest` happen
before any copy or write) or the success record. `nowIso` models
`iso_z(now)` and `nowTs` models `now.strftime("%Y%m%d-%H%M%S")`; the
`--timestamp` override is truthy-tested like the other optional flags. -/
def mainRun (source_dir : Option (List FileEntry)) (site_root : List String)
    (base_url : Option String) (template : Option JValue) (timestamp : Option String)
    (nowIso nowTs : String) (fs0 : List (List String)) :
    List (List String) × Except ScriptError MainOk :=
  match scan_pdfs source_dir with
  | .error e => (fs0, .error e)
  | .ok pdfs =>
      match build_manifest pdfs site_root fs0 base_url template nowIso with
      | .error e => (fs0, .error e)
      | .ok (fs1, manifest) =>
          let ts := match timestamp with
            | some t => if t = "" then nowTs else t
            | none => nowTs
          let latest := site_root ++ ["manifest.json"]
          let versioned := site_root ++ ["manifests", "manifest-" ++ ts ++ ".json"]
          let content := write_json_content (.obj manifest)
          let fs2 := fsAdd (fsAdd fs1 latest) versioned
          (fs2, .ok { fs := fs2
                      latestPath := latest
                      versionedPath := versioned
                      latestContent := content
                      versionedContent := content
                      exitCode := 0 })

end ABGViewer

namespace ABGViewer

/-! ### Concrete scenario fixtures (used by the witness theorems) -/

/-- A single scanned file: `JFK.pdf`, digest `H1`, 5 bytes. -/
def wFile : FileEntry :=
  { path := "JFK.pdf", stem := "JFK", isFile := true, sha256 := "H1", size := 5,
    mtimeIso := "2024-01-02T03:04:05Z" }

/-- The JSON text the writer produces for the `wFile` scenario. -/
def wContent : String :=
  "\x7b\n  \"schemaVersion\": 1,\n  \"generatedAt\": \"NOW\",\n  \"airports\": [\n    \x7b\n      \"iata\": \"JFK\",\n      \"icao\": \"JFK\",\n      \"name\": \"JFK\",\n      \"city\": \"\",\n      \"pdf\": \x7b\n        \"url\": \"pdfs/JFK/H1.pdf\",\n        \"sha256\": \"H1\",\n        \"size\": 5,\n        \"updatedAt\": \"2024-01-02T03:04:05Z\",\n        \"version\": \"2024-01-02\"\n      \x7d\n    \x7d\n  ]\n\x7d\n"

/-- The success record of the `wFile` run. -/
def wOk : MainOk :=
  { fs := [["docs", "manifests", "manifest-TS.json"], ["docs", "manifest.json"],
           ["docs", "pdfs", "JFK", "H1.pdf"]]
    latestPath := ["docs", "manifest.json"]
    versionedPath := ["docs", "manifests", "manifest-TS.json"]
    latestContent := wContent
    versionedContent := wContent
    exitCode := 0 }

/-- Duplicate-identifier scenario: two files whose stems normalize to `JFK`;
`a/JFK.pdf` sorts before `b/jfk.pdf`. -/
def w3f1 : FileEntry :=
  { path := "a/JFK.pdf", stem := "JFK", isFile := true, sha256 := "H1", size := 1,
    mtimeIso := "2024-01-02T03:04:05Z" }

/-- The duplicate: later path, same normalized identifier. -/
def w3f2 : FileEntry :=
  { path := "b/jfk.pdf", stem := "jfk", isFile := true, sha256 := "H2", size := 2,
    mtimeIso := "2024-02-02T03:04:05Z" }

/-- A directory matched by `rglob("*.pdf")`: the `is_file()` check skips it,
so a listing containing only such entries still yields an empty scan. -/
def w2dir : FileEntry :=
  { path := "sub.pdf", stem := "sub", isFile := false, sha256 := "", size := 0,
    mtimeIso := "" }

/-- Path-order discriminating pair, first file: under CPython `Path` order
`src/ab/jfk.pdf` sorts *before* `src/ab!c/JFK.pdf` (components
`["src","ab","jfk.pdf"]` vs `["src","ab!c","JFK.pdf"]`), although its path
string is flat-lexicographically *larger* (`/` sorts above `!`). -/
def c3fPlain : FileEntry :=
  { path := "src/ab/jfk.pdf", stem := "jfk", isFile := true, sha256 := "H1", size := 1,
    mtimeIso := "2024-01-02T03:04:05Z" }

/-- Path-order discriminating pair, second file: same normalized identifier
`JFK`, flat-lexicographically smaller path. -/
def c3fBang : FileEntry :=
  { path := "src/ab!c/JFK.pdf", stem := "JFK", isFile := true, sha256 := "H2", size := 2,
    mtimeIso := "2024-02-02T03:04:05Z" }

/-! ### Association-list lookup lemmas -/

theorem alookup_nil (k : String) : alookup ([] : List (String × α)) k = none := rfl

theorem alookup_cons (k' : String) (v' : α) (m : List (String × α)) (k : String) :
    alookup ((k', v') :: m) k = if k' = k then some v' else alookup m k := by
  by_cases h : k' = k
  · simp [alookup, List.find?_cons_of_pos, h]
  · have hb : ((k', v').1 == k) = false := by simpa using h
    simp [alookup, List.find?_cons_of_neg, hb, h]

theorem alookup_append (m₁ m₂ : List (String × α)) (k : String) :
    alookup (m₁ ++ m₂) k =
      match alookup m₁ k with
      | some v => some v
      | none => alookup m₂ k := by
  induction m₁ with
  | nil => simp [alookup_nil]
  | cons kv m₁ ih =>
      obtain ⟨k', v'⟩ := kv
      by_cases h : k' = k <;> simp [alookup_cons, h, ih]

theorem alookup_eq_none_iff (m : List (String × α)) (k : String) :
    alookup m k = none ↔ k ∉ m.map Prod.fst := by
  induction m with
  | nil => simp [alookup_nil]
  | cons kv m ih =>
      obtain ⟨k', v'⟩ := kv
      by_cases h : k' = k <;> simp [alookup_cons, h, ih, eq_comm (a := k) (b := k')]

theorem mem_of_alookup {m : List (String × α)} {k : String} {v : α}
    (h : alookup m k = some v) : (k, v) ∈ m := by
  induction m with
  | nil => simp [alookup_nil] at h
  | cons kv m ih =>
      obtain ⟨k', v'⟩ := kv
      by_cases hk : k' = k
      · simp [alookup_cons, hk] at h
        simp [hk, h]
      · simp [alookup_cons, hk] at h
        exact List.mem_cons_of_mem _ (ih h)

/-! ### dget / dset / dsetdefault lemmas -/

theorem dget_dset_self (d : JObj) (k : String) (v : JValue) :
    dget (dset d k v) k = some v := by
  induction d with
  | nil => simp [dset, dget, alookup_cons]
  | cons kv d ih =>
      obtain ⟨k', v'⟩ := kv
      by_cases h : k' = k
      · simp [dset, h, dget, alookup_cons]
      · have hb : (k' == k) = false := by simpa using h
        simpa [dset, hb, dget, alookup_cons, h] using ih

theorem dget_dset_ne (d : JObj) (k k' : String) (v : JValue) (h : k' ≠ k) :
    dget (dset d k v) k' = dget d k' := by
  have hne : ¬ k = k' := fun hh => h hh.symm
  induction d with
  | nil => simp [dset, dget, alookup_cons, alookup_nil, hne]
  | cons kv d ih =>
      obtain ⟨k₀, v₀⟩ := kv
      by_cases h0 : k₀ = k
      · have hb : (k₀ == k) = true := by simpa using h0
        subst h0
        simp [dset, hb, dget, alookup_cons, hne]
      · have hb : (k₀ == k) = false := by simpa using h0
        by_cases h1 : k₀ = k'
        · subst h1
          simp [dset, hb, dget, alookup_cons]
        · simpa [dset, hb, dget, alookup_cons, h1] using ih

theorem dsetdefault_of_isSome {d : JObj} {k : String} (v : JValue)
    (h : (dget d k).isSome) : dsetdefault d k v = d := by
  simp [dsetdefault, h]

theorem dget_dsetdefault_self_of_none {d : JObj} {k : String} (v : JValue)
    (h : dget d k = none) : dget (dsetdefault d k v) k = some v := by
  unfold dsetdefault
  rw [h]
  simp only [Option.isSome_none, Bool.false_eq_true, if_false]
  show alookup (d ++ [(k, v)]) k = some v
  rw [alookup_append, show alookup d k = none from h]
  simp [alookup_cons]

theorem dget_dsetdefault_ne (d : JObj) (k k' : String) (v : JValue) (h : k' ≠ k) :
    dget (dsetdefault d k v) k' = dget d k' := by
  have hne : ¬ k = k' := fun hh => h hh.symm
  by_cases hs : (dget d k).isSome
  · simp [dsetdefault, hs]
  · show alookup (dsetdefault d k v) k' = alookup d k'
    simp only [dsetdefault, hs, if_false, Bool.false_eq_true]
    rw [alookup_append]
    cases ha : alookup d k' with
    | some w => simp
    | none => simp [alookup_cons, alookup_nil, hne]

end ABGViewer

namespace ABGViewer

/-! ### Ordering lemmas for the path / identifier comparison -/

theorem charListLe_refl (l : List Char) : charListLe l l = true := by
  induction l with
  | nil => rfl
  | cons a as ih => simp [charListLe, ih]

theorem charListLe_total (la lb : List Char) :
    charListLe la lb = true ∨ charListLe lb la = true := by
  induction la generalizing lb with
  | nil => exact Or.inl rfl
  | cons a as ih =>
      cases lb with
      | nil => exact Or.inr rfl
      | cons b bs =>
          rcases lt_trichotomy a b with hab | hab | hab
          · left; simp [charListLe, hab]
          · subst hab
            rcases ih bs with h | h
            · left; simp [charListLe, h]
            · right; simp [charListLe, h]
          · right; simp [charListLe, hab]

theorem charListLe_trans {la lb lc : List Char}
    (h1 : charListLe la lb = true) (h2 : charListLe lb lc = true) :
    charListLe la lc = true := by
  induction la generalizing lb lc with
  | nil => rfl
  | cons a as ih =>
      cases lb with
      | nil => simp [charListLe] at h1
      | cons b bs =>
          cases lc with
          | nil => simp [charListLe] at h2
          | cons c cs =>
              simp only [charListLe] at h1 h2 ⊢
              rcases lt_trichotomy a b with hab | hab | hab
              · rcases lt_trichotomy b c with hbc | hbc | hbc
                · simp [lt_trans hab hbc]
                · subst hbc; simp [hab]
                · exfalso
                  simp [hbc, not_lt_of_gt hbc] at h2
              · subst hab
                rcases lt_trichotomy a c with hac | hac | hac
                · simp [hac]
                · subst hac
                  simp [lt_irrefl] at h1 h2 ⊢
                  exact ih h1 h2
                · exfalso
                  simp [lt_irrefl] at h1
                  simp [hac, not_lt_of_gt hac] at h2
              · exfalso
                simp [hab, not_lt_of_gt hab] at h1

theorem strLe_refl (a : String) : strLe a a = true := charListLe_refl a.data

theorem strLe_total (a b : String) : strLe a b = true ∨ strLe b a = true :=
  charListLe_total a.data b.data

theorem strLe_trans {a b c : String} (h1 : strLe a b = true) (h2 : strLe b c = true) :
    strLe a c = true := charListLe_trans h1 h2

theorem charListLt_irrefl (l : List Char) : charListLt l l = false := by
  induction l with
  | nil => rfl
  | cons a as ih => simp [charListLt, ih]

theorem charListLt_eq_of_not {la lb : List Char}
    (h1 : charListLt la lb = false) (h2 : charListLt lb la = false) : la = lb := by
  induction la generalizing lb with
  | nil =>
      cases lb with
      | nil => rfl
      | cons b bs => simp [charListLt] at h1
  | cons a as ih =>
      cases lb with
      | nil => simp [charListLt] at h2
      | cons b bs =>
          rcases lt_trichotomy a b with hab | hab | hab
          · simp [charListLt, hab] at h1
          · subst hab
            simp only [charListLt, lt_irrefl, if_false] at h1 h2
            rw [ih h1 h2]
          · simp [charListLt, hab, not_lt_of_gt hab] at h2

theorem charListLt_trans {la lb lc : List Char}
    (h1 : charListLt la lb = true) (h2 : charListLt lb lc = true) :
    charListLt la lc = true := by
  induction la generalizing lb lc with
  | nil =>
      cases lb with
      | nil => simp [charListLt] at h1
      | cons b bs =>
          cases lc with
          | nil => simp [charListLt] at h2
          | cons c cs => rfl
  | cons a as ih =>
      cases lb with
      | nil => simp [charListLt] at h1
      | cons b bs =>
          cases lc with
          | nil => simp [charListLt] at h2
          | cons c cs =>
              simp only [charListLt] at h1 h2 ⊢
              rcases lt_trichotomy a b with hab | hab | hab
              · rcases lt_trichotomy b c with hbc | hbc | hbc
                · simp [lt_trans hab hbc]
                · subst hbc; simp [hab]
                · exfalso
                  simp [hbc, not_lt_of_gt hbc] at h2
              · subst hab
                rcases lt_trichotomy a c with hac | hac | hac
                · simp [hac]
                · subst hac
                  simp [lt_irrefl] at h1 h2 ⊢
                  exact ih h1 h2
                · exfalso
                  simp [lt_irrefl] at h1
                  simp [hac, not_lt_of_gt hac] at h2
              · exfalso
                simp [hab, not_lt_of_gt hab] at h1

theorem partsLe_refl (l : List (List Char)) : partsLe l l = true := by
  induction l with
  | nil => rfl
  | cons a as ih => simp [partsLe, charListLt_irrefl, ih]

theorem partsLe_total (la lb : List (List Char)) :
    partsLe la lb = true ∨ partsLe lb la = true := by
  induction la generalizing lb with
  | nil => exact Or.inl rfl
  | cons a as ih =>
      cases lb with
      | nil => exact Or.inr rfl
      | cons b bs =>
          cases hab : charListLt a b with
          | true => exact Or.inl (by simp [partsLe, hab])
          | false =>
              cases hba : charListLt b a with
              | true => exact Or.inr (by simp [partsLe, hba])
              | false =>
                  rcases ih bs with h | h
                  · exact Or.inl (by simp [partsLe, hab, hba, h])
                  · exact Or.inr (by simp [partsLe, hab, hba, h])

theorem partsLe_trans {la lb lc : List (List Char)}
    (h1 : partsLe la lb = true) (h2 : partsLe lb lc = true) :
    partsLe la lc = true := by
  induction la generalizing lb lc with
  | nil => rfl
  | cons a as ih =>
      cases lb with
      | nil => simp [partsLe] at h1
      | cons b bs =>
          cases lc with
          | nil => simp [partsLe] at h2
          | cons c cs =>
              simp only [partsLe] at h1 h2 ⊢
              cases hab : charListLt a b with
              | true =>
                  cases hbc : charListLt b c with
                  | true => simp [charListLt_trans hab hbc]
                  | false =>
                      cases hcb : charListLt c b with
                      | true =>
                          rw [hbc, hcb] at h2
                          simp at h2
                      | false =>
                          have hbceq : b = c := charListLt_eq_of_not hbc hcb
                          subst hbceq
                          simp [hab]
              | false =>
                  cases hba : charListLt b a with
                  | true =>
                      rw [hab, hba] at h1
                      simp at h1
                  | false =>
                      have habeq : a = b := charListLt_eq_of_not hab hba
                      subst habeq
                      rw [hab] at h1
                      simp at h1
                      cases hac : charListLt a c with
                      | true => simp
                      | false =>
                          rw [hac] at h2
                          cases hca : charListLt c a with
                          | true =>
                              rw [hca] at h2
                              simp at h2
                          | false =>
                              rw [hca] at h2
                              simp at h2
                              simp
                              exact ih h1 h2

theorem purePathLe_refl (a : String) : purePathLe a a = true := partsLe_refl _

theorem purePathLe_total (a b : String) : purePathLe a b = true ∨ purePathLe b a = true :=
  partsLe_total _ _

theorem purePathLe_trans {a b c : String} (h1 : purePathLe a b = true)
    (h2 : purePathLe b c = true) : purePathLe a c = true := partsLe_trans h1 h2

/-! ### Stable-sort lemmas -/

theorem insertLe_perm (le : α → α → Bool) (x : α) (l : List α) :
    List.Perm (insertLe le x l) (x :: l) := by
  induction l with
  | nil => simp [insertLe]
  | cons y ys ih =>
      by_cases h : le x y = true
      · simp [insertLe, h]
      · simp only [insertLe, h, if_false, Bool.false_eq_true]
        exact ((ih.cons y).trans (List.Perm.swap x y ys))

theorem sortLe_perm (le : α → α → Bool) (l : List α) :
    List.Perm (sortLe le l) l := by
  induction l with
  | nil => simp [sortLe]
  | cons x xs ih =>
      exact (insertLe_perm le x (sortLe le xs)).trans (ih.cons x)

theorem insertLe_pairwise (le : α → α → Bool)
    (htrans : ∀ a b c, le a b = true → le b c = true → le a c = true)
    (htot : ∀ a b, le a b = true ∨ le b a = true)
    (x : α) {l : List α} (hl : l.Pairwise (fun a b => le a b = true)) :
    (insertLe le x l).Pairwise (fun a b => le a b = true) := by
  induction l with
  | nil => simp [insertLe]
  | cons y ys ih =>
      rcases List.pairwise_cons.mp hl with ⟨hy, hys⟩
      by_cases h : le x y = true
      · simp only [insertLe, h, if_true]
        refine List.pairwise_cons.mpr ⟨?_, hl⟩
        intro z hz
        rcases List.mem_cons.mp hz with rfl | hz
        · exact h
        · exact htrans x y z h (hy z hz)
      · have hyx : le y x = true := (htot x y).resolve_left h
        simp only [insertLe, h, if_false, Bool.false_eq_true]
        refine List.pairwise_cons.mpr ⟨?_, ih hys⟩
        intro z hz
        have hz' := (insertLe_perm le x ys).mem_iff.mp hz
        rcases List.mem_cons.mp hz' with rfl | hz'
        · exact hyx
        · exact hy z hz'

theorem sortLe_pairwise (le : α → α → Bool)
    (htrans : ∀ a b c, le a b = true → le b c = true → le a c = true)
    (htot : ∀ a b, le a b = true ∨ le b a = true) (l : List α) :
    (sortLe le l).Pairwise (fun a b => le a b = true) := by
  induction l with
  | nil => simp [sortLe]
  | cons x xs ih => exact insertLe_pairwise le htrans htot x ih

/-- The element `find?` returns from a `Pairwise`-sorted list is minimal
among the elements satisfying the predicate. -/
theorem find?_min_of_pairwise {R : α → α → Prop} {l : List α} {p : α → Bool}
    {f : α} (hrefl : ∀ a, R a a) (hl : l.Pairwise R) (hf : l.find? p = some f) :
    ∀ g ∈ l, p g = true → R f g := by
  induction l with
  | nil => simp at hf
  | cons y ys ih =>
      rcases List.pairwise_cons.mp hl with ⟨hy, hys⟩
      by_cases hp : p y = true
      · rw [List.find?_cons_of_pos _ hp] at hf
        cases hf
        intro g hg _
        rcases List.mem_cons.mp hg with rfl | hg
        · exact hrefl _
        · exact hy g hg
      · rw [List.find?_cons_of_neg _ (by simpa using hp)] at hf
        intro g hg hpg
        rcases List.mem_cons.mp hg with rfl | hg
        · exact absurd hpg hp
        · exact ih hys hf g hg hpg

end ABGViewer

namespace ABGViewer

/-- A binding already present in the accumulated map survives the rest of
the scan loop: the first record for an identifier wins. -/
theorem scanFold_alookup_some {l : List FileEntry} {acc : List (String × PdfInfo)}
    {k : String} {v : PdfInfo} (h : alookup acc k = some v) :
    alookup (l.foldl scanStep acc) k = some v := by
  induction l generalizing acc with
  | nil => simpa using h
  | cons p l ih =>
      rw [List.foldl_cons]
      apply ih
      unfold scanStep
      by_cases hf : p.isFile
      · simp only [hf, Bool.not_true, if_false, Bool.false_eq_true]
        by_cases he : safe_iata_from_filename p.stem = ""
        · simp [he, h]
        · simp only [he, if_false]
          by_cases hd : (alookup acc (safe_iata_from_filename p.stem)).isSome
          · simp [hd, h]
          · simp only [hd, if_false, Bool.false_eq_true]
            rw [alookup_append, h]
      · simp [hf, h]

/-- When the identifier is not yet bound, the record the scan loop ends up
with for it is built from the first loop item that is a file and normalizes
to that identifier. -/
theorem scanFold_alookup_none {l : List FileEntry} {acc : List (String × PdfInfo)}
    {k : String} (hacc : alookup acc k = none) (hk : k ≠ "") :
    alookup (l.foldl scanStep acc) k =
      (l.find? (fun f => f.isFile && (safe_iata_from_filename f.stem == k))).map
        (fun f => mkPdfInfo f k) := by
  induction l generalizing acc with
  | nil => simpa using hacc
  | cons p l ih =>
      rw [List.foldl_cons]
      by_cases hf : p.isFile
      · by_cases he : safe_iata_from_filename p.stem = ""
        · have hpk : (safe_iata_from_filename p.stem == k) = false := by
            rw [he]
            simpa using fun hh => hk hh.symm
          have hstep : scanStep acc p = acc := by simp [scanStep, hf, he]
          rw [hstep, List.find?_cons_of_neg _ (by simp [hf, hpk]), ih hacc]
        · by_cases hik : safe_iata_from_filename p.stem = k
          · -- `p` is the first matching file: it gets recorded and survives.
            have hd : (alookup acc (safe_iata_from_filename p.stem)).isSome = false := by
              rw [hik, hacc]; rfl
            have hstep : scanStep acc p =
                acc ++ [(safe_iata_from_filename p.stem, mkPdfInfo p (safe_iata_from_filename p.stem))] := by
              simp [scanStep, hf, he, hd]
            rw [hstep]
            have hacc' : alookup (acc ++ [(safe_iata_from_filename p.stem,
                mkPdfInfo p (safe_iata_from_filename p.stem))]) k = some (mkPdfInfo p k) := by
              rw [alookup_append, hacc, hik]
              simp [alookup_cons]
            rw [scanFold_alookup_some hacc', List.find?_cons_of_pos _ (by simp [hf, hik])]
            rfl
          · have hpk : (safe_iata_from_filename p.stem == k) = false := by simpa using hik
            rw [List.find?_cons_of_neg _ (by simp [hf, hpk])]
            unfold scanStep
            simp only [hf, Bool.not_true, if_false, he, Bool.false_eq_true]
            by_cases hd : (alookup acc (safe_iata_from_filename p.stem)).isSome
            · simp only [hd, if_true]
              exact ih hacc
            · simp only [hd, if_false, Bool.false_eq_true]
              apply ih
              rw [alookup_append, hacc]
              simp [alookup_cons, alookup_nil, hik]
      · have hstep : scanStep acc p = acc := by simp [scanStep, hf]
        rw [hstep, List.find?_cons_of_neg _ (by simp [hf]), ih hacc]

/-- Everything the scan loop adds comes from a matching file of the input. -/
theorem scanFold_mem {l : List FileEntry} {acc : List (String × PdfInfo)}
    {k : String} {v : PdfInfo} (h : (k, v) ∈ l.foldl scanStep acc) :
    (k, v) ∈ acc ∨ (k ≠ "" ∧ ∃ f ∈ l, f.isFile = true ∧ safe_iata_from_filename f.stem = k ∧
      v = mkPdfInfo f k) := by
  induction l generalizing acc with
  | nil => exact Or.inl (by simpa using h)
  | cons p l ih =>
      rw [List.foldl_cons] at h
      rcases ih h with hmem | ⟨hk, f, hfl, hfile, hstem, hv⟩
      · unfold scanStep at hmem
        by_cases hf : p.isFile
        · simp only [hf, Bool.not_true, if_false, Bool.false_eq_true] at hmem
          by_cases he : safe_iata_from_filename p.stem = ""
          · simp only [he, if_true] at hmem
            exact Or.inl hmem
          · simp only [he, if_false] at hmem
            by_cases hd : (alookup acc (safe_iata_from_filename p.stem)).isSome
            · simp only [hd, if_true] at hmem
              exact Or.inl hmem
            · simp only [hd, if_false, Bool.false_eq_true] at hmem
              rcases List.mem_append.mp hmem with hmem | hmem
              · exact Or.inl hmem
              · simp only [List.mem_singleton, Prod.mk.injEq] at hmem
                obtain ⟨h1, h2⟩ := hmem
                refine Or.inr ⟨by rw [h1]; exact he, p, List.mem_cons_self p l, hf, h1.symm,
                  by simp [h1, h2]⟩
        · simp only [hf, Bool.not_false, if_true] at hmem
          exact Or.inl hmem
      · exact Or.inr ⟨hk, f, List.mem_cons_of_mem p hfl, hfile, hstem, hv⟩


/-- The scan loop never creates two bindings for one identifier. -/
theorem scanFold_keys_nodup {l : List FileEntry} {acc : List (String × PdfInfo)}
    (hacc : (acc.map Prod.fst).Nodup) :
    ((l.foldl scanStep acc).map Prod.fst).Nodup := by
  induction l generalizing acc with
  | nil => simpa using hacc
  | cons p l ih =>
      rw [List.foldl_cons]
      apply ih
      unfold scanStep
      by_cases hf : p.isFile
      · simp only [hf, Bool.not_true, if_false, Bool.false_eq_true]
        by_cases he : safe_iata_from_filename p.stem = ""
        · simpa [he] using hacc
        · simp only [he, if_false]
          by_cases hd : (alookup acc (safe_iata_from_filename p.stem)).isSome
          · simpa [hd] using hacc
          · simp only [hd, if_false, Bool.false_eq_true]
            have hnot : safe_iata_from_filename p.stem ∉ acc.map Prod.fst := by
              apply (alookup_eq_none_iff acc _).mp
              cases hh : alookup acc (safe_iata_from_filename p.stem) with
              | none => rfl
              | some w => rw [hh] at hd; exact absurd rfl hd
            rw [List.map_append]
            simp [List.nodup_append, hacc, hnot]
      · simpa [hf] using hacc

/-- Non-file `rglob` matches (e.g. directories named `*.pdf`) are all
skipped by the `is_file()` check, leaving the map untouched. -/
theorem scanFold_no_files {l : List FileEntry} (h : ∀ f ∈ l, f.isFile = false)
    (acc : List (String × PdfInfo)) : l.foldl scanStep acc = acc := by
  induction l generalizing acc with
  | nil => rfl
  | cons p l ih =>
      rw [List.foldl_cons]
      have hp : p.isFile = false := h p (List.mem_cons_self p l)
      have hstep : scanStep acc p = acc := by simp [scanStep, hp]
      rw [hstep]
      exact ih (fun f hf => h f (List.mem_cons_of_mem p hf)) acc

/-- `copy_pdf_to_immutable_path` always returns the same relative URL,
independently of the filesystem state. -/
theorem copy_snd (site_root : List String) (fs : List (List String)) (pdf : PdfInfo) :
    (copy_pdf_to_immutable_path site_root fs pdf).2 = posixJoin (immutableRel pdf) := by
  unfold copy_pdf_to_immutable_path
  by_cases h : (site_root ++ immutableRel pdf) ∈ fs <;> simp [h]

/-- The destination exists after `copy_pdf_to_immutable_path`. -/
theorem copy_mem (site_root : List String) (fs : List (List String)) (pdf : PdfInfo) :
    (site_root ++ immutableRel pdf) ∈ (copy_pdf_to_immutable_path site_root fs pdf).1 := by
  unfold copy_pdf_to_immutable_path
  by_cases h : (site_root ++ immutableRel pdf) ∈ fs <;> simp [h]

/-- The template loop appends exactly the entries `templateEntryOf`
describes, in template order; the filesystem state never influences which
entries are produced or their contents. -/
theorem templateFold_snd (site_root : List String) (pdfs : List (String × PdfInfo))
    (tas : List JValue) (fs : List (List String)) (out : List JObj) :
    (tas.foldl (templateStep site_root pdfs) (fs, out)).2 =
      out ++ tas.filterMap (templateEntryOf pdfs) := by
  induction tas generalizing fs out with
  | nil => simp
  | cons a tas ih =>
      rw [List.foldl_cons, List.filterMap_cons]
      cases a with
      | obj ad =>
          by_cases he : templateIata ad = ""
          · have hstep : templateStep site_root pdfs (fs, out) (.obj ad) = (fs, out) := by
              simp [templateStep, he]
            have hent : templateEntryOf pdfs (.obj ad) = none := by
              simp [templateEntryOf, he]
            rw [hstep, hent, ih]
          · cases hp : alookup pdfs (templateIata ad) with
            | none =>
                have hstep : templateStep site_root pdfs (fs, out) (.obj ad) = (fs, out) := by
                  simp [templateStep, he, hp]
                have hent : templateEntryOf pdfs (.obj ad) = none := by
                  simp [templateEntryOf, he, hp]
                rw [hstep, hent, ih]
            | some pdf =>
                have hstep : templateStep site_root pdfs (fs, out) (.obj ad) =
                    ((copy_pdf_to_immutable_path site_root fs pdf).1,
                     out ++ [dset (normalize_airport_dict ad (templateIata ad)) "pdf"
                       (pdfBlock (posixJoin (immutableRel pdf)) pdf)]) := by
                  simp [templateStep, he, hp, copy_snd]
                have hent : templateEntryOf pdfs (.obj ad) =
                    some (dset (normalize_airport_dict ad (templateIata ad)) "pdf"
                      (pdfBlock (posixJoin (immutableRel pdf)) pdf)) := by
                  simp [templateEntryOf, he, hp]
                rw [hstep, hent, ih]
                simp
      | str s =>
          rw [show templateStep site_root pdfs (fs, out) (.str s) = (fs, out) from rfl, ih]
          rfl
      | int n =>
          rw [show templateStep site_root pdfs (fs, out) (.int n) = (fs, out) from rfl, ih]
          rfl
      | bool b =>
          rw [show templateStep site_root pdfs (fs, out) (.bool b) = (fs, out) from rfl, ih]
          rfl
      | null =>
          rw [show templateStep site_root pdfs (fs, out) (.null) = (fs, out) from rfl, ih]
          rfl
      | arr xs =>
          rw [show templateStep site_root pdfs (fs, out) (.arr xs) = (fs, out) from rfl, ih]
          rfl

/-- The minimal (no-template) loop appends one entry per map item, in
order, again independent of the filesystem state. -/
theorem minimalFold_snd (site_root : List String) (l : List (String × PdfInfo))
    (fs : List (List String)) (out : List JObj) :
    (l.foldl (minimalStep site_root) (fs, out)).2 =
      out ++ l.map (fun kv => minimalEntry kv.1 (posixJoin (immutableRel kv.2)) kv.2) := by
  induction l generalizing fs out with
  | nil => simp
  | cons kv l ih =>
      rw [List.foldl_cons]
      have hstep : minimalStep site_root (fs, out) kv =
          ((copy_pdf_to_immutable_path site_root fs kv.2).1,
           out ++ [minimalEntry kv.1 (posixJoin (immutableRel kv.2)) kv.2]) := by
        simp [minimalStep, copy_snd]
      rw [hstep, ih]
      simp

end ABGViewer

namespace ABGViewer

/-- Unpacks a successful `build_manifest`: the airports list `build_airports`
produced, and the values of the root-level fields, including the truthiness
behaviour of `base_url` (`if base_url:` is false for `None` and `""`). -/
theorem build_manifest_fields {pdfs : List (String × PdfInfo)} {site_root : List String}
    {fs fs' : List (List String)} {base_url : Option String} {template : Option JValue}
    {nowIso : String} {m : JObj}
    (h : build_manifest pdfs site_root fs base_url template nowIso = .ok (fs', m)) :
    ∃ outs, build_airports pdfs site_root fs template = .ok (fs', outs) ∧
      dget m "airports" = some (.arr (outs.map .obj)) ∧
      dget m "generatedAt" = some (.str nowIso) ∧
      dget m "schemaVersion" = some (.int SCHEMA_VERSION) ∧
      dget m "baseURL" = (match base_url with
        | some u => if u = "" then none else some (.str (ensure_trailing_slash u))
        | none => none) := by
  unfold build_manifest at h
  cases hba : build_airports pdfs site_root fs template with
  | error e => rw [hba] at h; exact absurd h (by simp)
  | ok p =>
      obtain ⟨fs₀, outs⟩ := p
      rw [hba] at h
      simp only at h
      refine ⟨outs, ?_⟩
      cases base_url with
      | none =>
          have hinj := Except.ok.inj h
          have hfs : fs₀ = fs' := by simpa using congrArg Prod.fst hinj
          have hm := congrArg Prod.snd hinj
          simp only at hm
          subst hfs
          subst hm
          exact ⟨rfl, by simp [dget, alookup_cons], by simp [dget, alookup_cons],
            by simp [dget, alookup_cons], by simp [dget, alookup_cons, alookup_nil]⟩
      | some u =>
          simp only at h
          by_cases hu : u = ""
          · rw [if_pos hu] at h
            have hinj := Except.ok.inj h
            have hfs : fs₀ = fs' := by simpa using congrArg Prod.fst hinj
            have hm := congrArg Prod.snd hinj
            simp only at hm
            subst hfs
            subst hm
            refine ⟨rfl, by simp [dget, alookup_cons], by simp [dget, alookup_cons],
              by simp [dget, alookup_cons], ?_⟩
            simp [hu, dget, alookup_cons, alookup_nil]
          · rw [if_neg hu] at h
            have hinj := Except.ok.inj h
            have hfs : fs₀ = fs' := by simpa using congrArg Prod.fst hinj
            have hm := congrArg Prod.snd hinj
            simp only at hm
            subst hfs
            subst hm
            refine ⟨rfl, ?_, ?_, ?_, ?_⟩
            · simp [dget, alookup_append, alookup_cons]
            · simp [dget, alookup_append, alookup_cons]
            · simp [dget, alookup_append, alookup_cons]
            · simp [hu, dget, alookup_append, alookup_cons, alookup_nil]

end ABGViewer

namespace ABGViewer

/-! ### Further helper lemmas -/

theorem posixJoin_immutableRel (pdf : PdfInfo) :
    posixJoin (immutableRel pdf) = "pdfs/" ++ pdf.iata ++ "/" ++ pdf.sha256 ++ ".pdf" := by
  show String.intercalate "/" ["pdfs", pdf.iata, pdf.sha256 ++ ".pdf"] = _
  simp [String.intercalate, String.intercalate.go, String.append_assoc]

theorem alookup_eq_of_mem_nodup {m : List (String × α)} {k : String} {v : α}
    (hnd : (m.map Prod.fst).Nodup) (h : (k, v) ∈ m) : alookup m k = some v := by
  induction m with
  | nil => simp at h
  | cons kv m ih =>
      obtain ⟨k', v'⟩ := kv
      rw [List.map_cons, List.nodup_cons] at hnd
      rcases List.mem_cons.mp h with heq | h
      · cases heq
        simp [alookup_cons]
      · have hk : k' ≠ k := by
          intro hh
          subst hh
          exact hnd.1 (List.mem_map.mpr ⟨(k', v), h, rfl⟩)
        rw [alookup_cons, if_neg hk]
        exact ih hnd.2 h


/-- Shape of a successful no-template `build_airports`: one minimal entry
per scanned record, over the identifier-sorted map. -/
theorem build_airports_none_snd {pdfs : List (String × PdfInfo)} {site_root : List String}
    {fs fs' : List (List String)} {outs : List JObj}
    (h : build_airports pdfs site_root fs none = .ok (fs', outs)) :
    outs = (sortLe keyLe pdfs).map
      (fun kv => minimalEntry kv.1 (posixJoin (immutableRel kv.2)) kv.2) := by
  unfold build_airports at h
  have hsnd := congrArg Prod.snd (Except.ok.inj h)
  simp only at hsnd
  rw [← hsnd, minimalFold_snd]
  simp

/-- Shape of a successful template-driven `build_airports`: the
`templateEntryOf` results, in template order. -/
theorem build_airports_template_snd {pdfs : List (String × PdfInfo)} {site_root : List String}
    {fs fs' : List (List String)} {outs : List JObj} {tf : JObj} {tas : List JValue}
    (hta : dget tf "airports" = some (.arr tas))
    (h : build_airports pdfs site_root fs (some (.obj tf)) = .ok (fs', outs)) :
    outs = tas.filterMap (templateEntryOf pdfs) := by
  unfold build_airports at h
  simp only at h
  rw [hta] at h
  simp only at h
  have hsnd := congrArg Prod.snd (Except.ok.inj h)
  simp only at hsnd
  rw [← hsnd, templateFold_snd]
  simp

/-- What a produced template entry looks like: its record comes from the
scan map under the normalized template identifier. -/
theorem templateEntryOf_some {pdfs : List (String × PdfInfo)} {a : JValue} {e : JObj}
    (h : templateEntryOf pdfs a = some e) :
    ∃ ad pdf, a = .obj ad ∧ templateIata ad ≠ "" ∧
      alookup pdfs (templateIata ad) = some pdf ∧
      e = dset (normalize_airport_dict ad (templateIata ad)) "pdf"
        (pdfBlock (posixJoin (immutableRel pdf)) pdf) := by
  cases a with
  | obj ad =>
      unfold templateEntryOf at h
      by_cases he : templateIata ad = ""
      · simp [he] at h
      · simp only [he, if_false] at h
        cases hp : alookup pdfs (templateIata ad) with
        | none => rw [hp] at h; simp at h
        | some pdf =>
            rw [hp] at h
            simp only [Option.some.injEq] at h
            exact ⟨ad, pdf, rfl, he, hp, h.symm⟩
  | str s => simp [templateEntryOf] at h
  | int n => simp [templateEntryOf] at h
  | bool b => simp [templateEntryOf] at h
  | null => simp [templateEntryOf] at h
  | arr xs => simp [templateEntryOf] at h

/-- A template entry whose normalized identifier has no scanned record is
dropped. -/
theorem templateEntryOf_none_of_unmatched {pdfs : List (String × PdfInfo)} {ad : JObj}
    (h : alookup pdfs (templateIata ad) = none) :
    templateEntryOf pdfs (.obj ad) = none := by
  unfold templateEntryOf
  by_cases he : templateIata ad = ""
  · simp [he]
  · simp [he, h]

end ABGViewer

namespace ABGViewer


/-- **C9** For every successful run, the latest manifest file and the
timestamped snapshot are serializations of the same manifest object by the
same writer, so their contents are byte-identical while their paths differ. -/
theorem c9_latest_equals_snapshot {source_dir : Option (List FileEntry)}
    {site_root : List String} {base_url : Option String} {template : Option JValue}
    {timestamp : Option String} {nowIso nowTs : String} {fs0 fsOut : List (List String)}
    {r : MainOk}
    (h : mainRun source_dir site_root base_url template timestamp nowIso nowTs fs0 =
      (fsOut, .ok r)) :
    r.latestContent = r.versionedContent ∧ r.latestPath ≠ r.versionedPath := by
  unfold mainRun at h
  cases hscan : scan_pdfs source_dir with
  | error e => rw [hscan] at h; simp at h
  | ok pdfs =>
      rw [hscan] at h
      simp only at h
      cases hb : build_manifest pdfs site_root fs0 base_url template nowIso with
      | error e => rw [hb] at h; simp at h
      | ok p =>
          obtain ⟨fs1, manifest⟩ := p
          rw [hb] at h
          simp only at h
          have hr := congrArg Prod.snd h
          simp only at hr
          have hr2 := Except.ok.inj hr
          rw [← hr2]
          refine ⟨rfl, ?_⟩
          intro heq
          have hlen := congrArg List.length heq
          simp [List.length_append] at hlen

set_option maxRecDepth 4000 in
/-- Witness for C9: the `wFile` run succeeds, and its two written files have
identical content and distinct paths. -/
theorem c9_witness :
    mainRun (some [wFile]) ["docs"] none none (some "TS") "NOW" "NT" [] =
      (wOk.fs, .ok wOk) ∧
    wOk.latestContent = wOk.versionedContent ∧ wOk.latestPath ≠ wOk.versionedPath :=
  ⟨rfl, @c9_latest_equals_snapshot (some [wFile]) ["docs"] none none (some "TS") "NOW" "NT"
    [] wOk.fs wOk rfl⟩


/-- **C1 counterexample** The claim places published files under
`documents/<identifier>/<hash>.<ext>`; the code uses the directory `pdfs`,
so for identifier `JFK` and hash `H1` the returned publication URL is
`pdfs/JFK/H1.pdf`, not `documents/JFK/H1.pdf`. -/
theorem c1_published_path_counterexample :
    (copy_pdf_to_immutable_path [] []
      { iata := "JFK", src_path := "source-pdfs/JFK.pdf", sha256 := "H1", size := 5,
        mtimeIso := "2024-01-02T03:04:05Z" }).2 = "pdfs/JFK/H1.pdf" ∧
    "pdfs/JFK/H1.pdf" ≠ "documents/JFK/H1.pdf" :=
  ⟨rfl, by decide⟩

/-- **C1 (amended)** For every scanned document record, the published file
is placed at the content-addressed path `<site-root>/pdfs/<identifier>/<hash>.pdf`
and the returned publication URL — which `build_airports` stores verbatim in
each manifest entry's `pdf.url` — is the relative path
`pdfs/<identifier>/<hash>.pdf`. -/
theorem c1_published_path_amended (site_root : List String) (fs : List (List String))
    (pdf : PdfInfo) :
    (copy_pdf_to_immutable_path site_root fs pdf).2 =
        "pdfs/" ++ pdf.iata ++ "/" ++ pdf.sha256 ++ ".pdf" ∧
    (site_root ++ ["pdfs", pdf.iata, pdf.sha256 ++ ".pdf"]) ∈
        (copy_pdf_to_immutable_path site_root fs pdf).1 ∧
    (∀ (pdfs : List (String × PdfInfo)) (template : Option JValue)
        (fs0 fs' : List (List String)) (outs : List JObj),
      build_airports pdfs site_root fs0 template = .ok (fs', outs) →
      ∀ e ∈ outs, ∃ info : PdfInfo, (∃ i, (i, info) ∈ pdfs) ∧
        dget e "pdf" = some (pdfBlock
          ("pdfs/" ++ info.iata ++ "/" ++ info.sha256 ++ ".pdf") info)) := by
  refine ⟨by rw [copy_snd, posixJoin_immutableRel], copy_mem site_root fs pdf, ?_⟩
  intro pdfs template fs0 fs' outs hba e he
  cases template with
  | none =>
      rw [build_airports_none_snd hba] at he
      obtain ⟨kv, hkv, hekv⟩ := List.mem_map.mp he
      refine ⟨kv.2, ⟨kv.1, ?_⟩, ?_⟩
      · exact (sortLe_perm keyLe pdfs).mem_iff.mp hkv
      · rw [← hekv, ← posixJoin_immutableRel]
        simp [minimalEntry, dget, alookup_cons]
  | some t =>
      cases t with
      | obj tf =>
          cases hta : dget tf "airports" with
          | none =>
              unfold build_airports at hba
              simp only at hba
              rw [hta] at hba
              simp at hba
          | some v =>
              cases v with
              | arr tas =>
                  rw [build_airports_template_snd hta hba] at he
                  obtain ⟨a, ha, hsome⟩ := List.mem_filterMap.mp he
                  obtain ⟨ad, info, rfl, hne, hfound, hent⟩ := templateEntryOf_some hsome
                  refine ⟨info, ⟨templateIata ad, mem_of_alookup hfound⟩, ?_⟩
                  rw [hent, ← posixJoin_immutableRel, dget_dset_self]
              | str s =>
                  unfold build_airports at hba
                  simp only at hba; rw [hta] at hba; simp at hba
              | int n =>
                  unfold build_airports at hba
                  simp only at hba; rw [hta] at hba; simp at hba
              | bool b =>
                  unfold build_airports at hba
                  simp only at hba; rw [hta] at hba; simp at hba
              | null =>
                  unfold build_airports at hba
                  simp only at hba; rw [hta] at hba; simp at hba
              | obj kvs =>
                  unfold build_airports at hba
                  simp only at hba; rw [hta] at hba; simp at hba
      | str s => unfold build_airports at hba; simp at hba
      | int n => unfold build_airports at hba; simp at hba
      | bool b => unfold build_airports at hba; simp at hba
      | null => unfold build_airports at hba; simp at hba
      | arr xs => unfold build_airports at hba; simp at hba

/-- Witness for the amended C1: the `wFile` scenario, with the entry of the
built manifest carrying the content-addressed URL. -/
theorem c1_published_path_witness :
    (copy_pdf_to_immutable_path ["docs"] [] (mkPdfInfo wFile "JFK")).2 =
      "pdfs/" ++ "JFK" ++ "/" ++ "H1" ++ ".pdf" ∧
    (["docs"] ++ ["pdfs", "JFK", "H1" ++ ".pdf"]) ∈
      (copy_pdf_to_immutable_path ["docs"] [] (mkPdfInfo wFile "JFK")).1 ∧
    build_airports [("JFK", mkPdfInfo wFile "JFK")] ["docs"] [] none =
      .ok ([["docs", "pdfs", "JFK", "H1.pdf"]],
        [minimalEntry "JFK" "pdfs/JFK/H1.pdf" (mkPdfInfo wFile "JFK")]) ∧
    dget (minimalEntry "JFK" "pdfs/JFK/H1.pdf" (mkPdfInfo wFile "JFK")) "pdf" =
      some (pdfBlock ("pdfs/" ++ "JFK" ++ "/" ++ "H1" ++ ".pdf") (mkPdfInfo wFile "JFK")) := by
  have h := c1_published_path_amended ["docs"] [] (mkPdfInfo wFile "JFK")
  refine ⟨h.1, h.2.1, rfl, ?_⟩
  have h3 := h.2.2 [("JFK", mkPdfInfo wFile "JFK")] none [] [["docs", "pdfs", "JFK", "H1.pdf"]]
    [minimalEntry "JFK" "pdfs/JFK/H1.pdf" (mkPdfInfo wFile "JFK")] rfl
    (minimalEntry "JFK" "pdfs/JFK/H1.pdf" (mkPdfInfo wFile "JFK")) (by simp)
  obtain ⟨info, ⟨i, hmem⟩, hpdf⟩ := h3
  have : info = mkPdfInfo wFile "JFK" := by
    rcases List.mem_singleton.mp hmem with h'
    exact congrArg Prod.snd h'
  rw [this] at hpdf
  exact hpdf

/-- **C2** A run whose source directory does not exist fails with the
FileNotFound-class error, and a run whose source directory contains zero
files with the `.pdf` extension — the `rglob` listing is empty or consists
only of non-file matches such as directories named `*.pdf` — fails with the
RuntimeError-class error; in both cases the output tree is returned
unchanged (`fs0`) and no manifest content exists, so no output files are
produced. -/
theorem c2_empty_or_missing_source_fails (site_root : List String)
    (base_url : Option String) (template : Option JValue) (timestamp : Option String)
    (nowIso nowTs : String) (fs0 : List (List String)) (files : List FileEntry)
    (hnf : ∀ f ∈ files, f.isFile = false) :
    mainRun none site_root base_url template timestamp nowIso nowTs fs0 =
      (fs0, .error (.fileNotFound "source-pdfs folder not found")) ∧
    mainRun (some files) site_root base_url template timestamp nowIso nowTs fs0 =
      (fs0, .error (.runtimeError "No PDFs found under source dir")) := by
  refine ⟨rfl, ?_⟩
  have hscan : scan_pdfs (some files) =
      .error (.runtimeError "No PDFs found under source dir") := by
    unfold scan_pdfs
    simp only
    rw [scanFold_no_files (fun f hf => hnf f ((sortLe_perm pathLe files).mem_iff.mp hf))]
    rfl
  unfold mainRun
  rw [hscan]

/-- Witness for C2: the missing directory, and a listing holding only a
directory named `sub.pdf` (no files with the extension). -/
theorem c2_empty_or_missing_source_fails_witness :
    mainRun none ["docs"] none none none "NOW" "NT" [] =
      ([], .error (.fileNotFound "source-pdfs folder not found")) ∧
    mainRun (some [w2dir]) ["docs"] none none none "NOW" "NT" [] =
      ([], .error (.runtimeError "No PDFs found under source dir")) :=
  c2_empty_or_missing_source_fails ["docs"] none none none "NOW" "NT" [] [w2dir]
    (by decide)

/-- **C7** With a template whose top-level `airports` field is missing or
not a list, `build_manifest` fails with the ValueError-class validation
error (before any entry is produced: the error result carries no entries
and the filesystem argument is untouched). -/
theorem c7_template_airports_validation (pdfs : List (String × PdfInfo))
    (site_root : List String) (fs : List (List String)) (base_url : Option String)
    (nowIso : String) (tf : JObj)
    (h : ∀ l, dget tf "airports" ≠ some (.arr l)) :
    build_manifest pdfs site_root fs base_url (some (.obj tf)) nowIso =
      .error (.valueError "Template manifest must contain an airports array.") := by
  cases hg : dget tf "airports" with
  | none => unfold build_manifest build_airports; simp [hg]
  | some v =>
      cases v with
      | arr l => exact absurd hg (h l)
      | str s => unfold build_manifest build_airports; simp [hg]
      | int n => unfold build_manifest build_airports; simp [hg]
      | bool b => unfold build_manifest build_airports; simp [hg]
      | null => unfold build_manifest build_airports; simp [hg]
      | obj kvs => unfold build_manifest build_airports; simp [hg]

/-- Witness for C7: the empty-object template has no `airports` field. -/
theorem c7_template_airports_validation_witness :
    build_manifest [] [] [] none (some (.obj [])) "NOW" =
      .error (.valueError "Template manifest must contain an airports array.") :=
  c7_template_airports_validation [] [] [] none "NOW" []
    (fun _ hl => Option.noConfusion hl)


/-- **C8 counterexample** The claim says the root manifest contains the
`baseURL` field if and only if a base URL was supplied. Supplying the empty
string is falsy in Python (`if base_url:`), so this build receives a base
URL yet emits no `baseURL` field. -/
theorem c8_base_url_counterexample :
    build_manifest [] [] [] (some "") none "NOW" =
      .ok ([], [("schemaVersion", .int 1), ("generatedAt", .str "NOW"),
                ("airports", .arr [])]) ∧
    dget [("schemaVersion", JValue.int 1), ("generatedAt", JValue.str "NOW"),
          ("airports", JValue.arr [])] "baseURL" = none :=
  ⟨rfl, rfl⟩

/-- **C8 (amended)** The root manifest contains `baseURL` iff the caller
supplied a non-empty base URL, in which case its value is the supplied URL
normalized by `ensure_trailing_slash` (a slash is appended unless the URL
already ends with one). -/
theorem c8_base_url_amended {pdfs : List (String × PdfInfo)} {site_root : List String}
    {fs fs' : List (List String)} {base_url : Option String} {template : Option JValue}
    {nowIso : String} {m : JObj}
    (h : build_manifest pdfs site_root fs base_url template nowIso = .ok (fs', m)) :
    (base_url = none → dget m "baseURL" = none) ∧
    (base_url = some "" → dget m "baseURL" = none) ∧
    (∀ u, base_url = some u → u ≠ "" →
      dget m "baseURL" = some (.str (ensure_trailing_slash u))) ∧
    (∀ u, pyEndsWith u "/" = true → ensure_trailing_slash u = u) ∧
    (∀ u, pyEndsWith u "/" = false → ensure_trailing_slash u = u ++ "/") := by
  obtain ⟨outs, _, _, _, _, hbu⟩ := build_manifest_fields h
  refine ⟨?_, ?_, ?_, ?_, ?_⟩
  · rintro rfl
    simpa using hbu
  · rintro rfl
    simpa using hbu
  · rintro u rfl hu
    rw [hbu]
    simp [hu]
  · intro u hu
    simp [ensure_trailing_slash, hu]
  · intro u hu
    simp [ensure_trailing_slash, hu]

/-- Witness for the amended C8: a build with base URL `"u"` yields
`baseURL = "u/"`. -/
theorem c8_base_url_witness :
    build_manifest [] [] [] (some "u") none "NOW" =
      .ok ([], [("schemaVersion", .int 1), ("generatedAt", .str "NOW"),
                ("airports", .arr []), ("baseURL", .str "u/")]) ∧
    dget [("schemaVersion", JValue.int 1), ("generatedAt", JValue.str "NOW"),
          ("airports", JValue.arr []), ("baseURL", JValue.str "u/")] "baseURL" =
      some (.str (ensure_trailing_slash "u")) :=
  ⟨rfl, (@c8_base_url_amended [] [] [] []
    (some "u") none "NOW"
    [("schemaVersion", JValue.int 1), ("generatedAt", JValue.str "NOW"),
     ("airports", JValue.arr []), ("baseURL", JValue.str "u/")]
    rfl).2.2.1 "u" rfl (by decide)⟩

end ABGViewer

namespace ABGViewer

/-- `normalize_airport_dict` forces the `iata` field to the normalized
identifier. -/
theorem dget_normalize_iata (ad : JObj) (iata : String) :
    dget (normalize_airport_dict ad iata) "iata" = some (.str iata) := by
  unfold normalize_airport_dict
  rw [dget_dsetdefault_ne _ _ _ _ (by decide), dget_dsetdefault_ne _ _ _ _ (by decide),
      dget_dsetdefault_ne _ _ _ _ (by decide), dget_dset_self]

/-- A successful `scan_pdfs` run is the fold of the sorted file list, and is
nonempty. -/
theorem scan_pdfs_ok {files : List FileEntry} {m : List (String × PdfInfo)}
    (h : scan_pdfs (some files) = .ok m) :
    m = (sortLe pathLe files).foldl scanStep [] ∧ m ≠ [] := by
  unfold scan_pdfs at h
  simp only at h
  by_cases he : ((sortLe pathLe files).foldl scanStep []).isEmpty
  · rw [if_pos he] at h
    exact Except.noConfusion h
  · rw [if_neg he] at h
    have hinj := Except.ok.inj h
    refine ⟨hinj.symm, ?_⟩
    rw [← hinj]
    intro hnil
    rw [hnil] at he
    exact he rfl


/-- **C3 counterexample** The claim says the kept duplicate is the one
whose source path is lexicographically first. The program iterates in
CPython `Path` order, which compares component lists: with the matching
files `src/ab!c/JFK.pdf` and `src/ab/jfk.pdf` (both normalize to `JFK`)
the scan keeps `src/ab/jfk.pdf`, although the skipped `src/ab!c/JFK.pdf`
is strictly smaller in flat lexicographic string order (`!` sorts below
`/`). -/
theorem c3_string_order_counterexample :
    scan_pdfs (some [c3fBang, c3fPlain]) = .ok [("JFK", mkPdfInfo c3fPlain "JFK")] ∧
    c3fBang.isFile = true ∧
    safe_iata_from_filename c3fBang.stem = "JFK" ∧
    strLe c3fBang.path (mkPdfInfo c3fPlain "JFK").src_path = true ∧
    c3fBang.path ≠ (mkPdfInfo c3fPlain "JFK").src_path :=
  ⟨rfl, rfl, rfl, by decide, by decide⟩

/-- **C3 (amended)** On identifier collisions the scan keeps exactly one
record per normalized identifier — the one whose source path comes first in
the program's path ordering (CPython compares paths component by component,
each component as a string) — and the run does not fail because of the
duplicate: whenever at least one usable file is present the scan succeeds.
(The skipped duplicate only triggers a warning print, which has no further
effect.) -/
theorem c3_duplicate_identifier_first_wins (files : List FileEntry) :
    (∀ m, scan_pdfs (some files) = .ok m →
      (m.map Prod.fst).Nodup ∧
      ∀ k v, (k, v) ∈ m →
        (∃ f ∈ files, f.isFile = true ∧ safe_iata_from_filename f.stem = k ∧
          v = mkPdfInfo f k) ∧
        (∀ g ∈ files, g.isFile = true → safe_iata_from_filename g.stem = k →
          purePathLe v.src_path g.path = true)) ∧
    (∀ f ∈ files, f.isFile = true → safe_iata_from_filename f.stem ≠ "" →
      ∃ m, scan_pdfs (some files) = .ok m ∧
        ∃ v, alookup m (safe_iata_from_filename f.stem) = some v) := by
  have hpairwise : (sortLe pathLe files).Pairwise (fun a b => pathLe a b = true) :=
    sortLe_pairwise pathLe (fun a b c h1 h2 => purePathLe_trans h1 h2)
      (fun a b => purePathLe_total a.path b.path) files
  have hperm := sortLe_perm pathLe files
  constructor
  · intro m hscan
    obtain ⟨hm, hne⟩ := scan_pdfs_ok hscan
    have hnodup : (m.map Prod.fst).Nodup := by
      rw [hm]
      exact scanFold_keys_nodup (by simp)
    refine ⟨hnodup, ?_⟩
    intro k v hmem
    have hmem' := hmem
    rw [hm] at hmem'
    rcases scanFold_mem hmem' with habs | ⟨hk, f, hfl, hfile, hstem, hv⟩
    · simp at habs
    · constructor
      · exact ⟨f, hperm.mem_iff.mp hfl, hfile, hstem, hv⟩
      · -- the looked-up record is built from the first matching file of the
        -- path-sorted list, hence minimal among all matches
        have hlook : alookup m k = some v := alookup_eq_of_mem_nodup hnodup hmem
        rw [hm, scanFold_alookup_none (alookup_nil _) hk] at hlook
        cases hfind : (sortLe pathLe files).find?
            (fun f => f.isFile && (safe_iata_from_filename f.stem == k)) with
        | none => rw [hfind] at hlook; exact absurd hlook (by simp)
        | some f0 =>
            rw [hfind] at hlook
            have hlook2 : mkPdfInfo f0 k = v := by simpa using hlook
            intro g hg hgfile hgstem
            have hmin := find?_min_of_pairwise (R := fun a b => pathLe a b = true)
              (fun a => purePathLe_refl a.path) hpairwise hfind g
              (hperm.mem_iff.mpr hg) (by simp [hgfile, hgstem])
            rw [← hlook2]
            exact hmin
  · intro f hf hfile hne
    have hfsorted : f ∈ sortLe pathLe files := hperm.mem_iff.mpr hf
    have hfindSome : ((sortLe pathLe files).find?
        (fun g => g.isFile && (safe_iata_from_filename g.stem ==
          safe_iata_from_filename f.stem))).isSome := by
      rw [List.find?_isSome]
      exact ⟨f, hfsorted, by simp [hfile]⟩
    obtain ⟨f0, hf0⟩ := Option.isSome_iff_exists.mp hfindSome
    have hlook : alookup ((sortLe pathLe files).foldl scanStep [])
        (safe_iata_from_filename f.stem) = some (mkPdfInfo f0 (safe_iata_from_filename f.stem)) := by
      rw [scanFold_alookup_none (alookup_nil _) hne, hf0]
      rfl
    have hnil : (sortLe pathLe files).foldl scanStep [] ≠ [] := by
      intro hn
      rw [hn] at hlook
      exact Option.noConfusion hlook
    have hempty : ((sortLe pathLe files).foldl scanStep []).isEmpty = false := by
      cases hc : (sortLe pathLe files).foldl scanStep [] with
      | nil => exact absurd hc hnil
      | cons a l => rfl
    refine ⟨(sortLe pathLe files).foldl scanStep [], ?_, ?_⟩
    · unfold scan_pdfs
      simp only
      rw [hempty]
      simp
    · exact ⟨mkPdfInfo f0 (safe_iata_from_filename f.stem), hlook⟩



/-- Witness for C3: with the duplicate pair the scan succeeds, keeps one
entry, and the kept source path is lexicographically least. -/
theorem c3_duplicate_identifier_first_wins_witness :
    scan_pdfs (some [w3f2, w3f1]) = .ok [("JFK", mkPdfInfo w3f1 "JFK")] ∧
    ([("JFK", mkPdfInfo w3f1 "JFK")].map Prod.fst).Nodup ∧
    purePathLe (mkPdfInfo w3f1 "JFK").src_path w3f2.path = true := by
  have h := (c3_duplicate_identifier_first_wins [w3f2, w3f1]).1
    [("JFK", mkPdfInfo w3f1 "JFK")] rfl
  refine ⟨rfl, h.1, ?_⟩
  exact (h.2 "JFK" (mkPdfInfo w3f1 "JFK") (by simp)).2 w3f2 (by simp) rfl rfl

/-- **C4** Without a template the manifest's entry list has exactly one
entry per scanned record, in ascending identifier order; with a template the
entry list is the order-preserving image (`filterMap`) of the template's
entries. -/
theorem c4_entry_count_and_order (pdfs : List (String × PdfInfo)) (site_root : List String)
    (fs : List (List String)) (base_url : Option String) (nowIso : String) :
    (∀ fs' m, build_manifest pdfs site_root fs base_url none nowIso = .ok (fs', m) →
      ∃ ps, List.Perm ps pdfs ∧ ps.length = pdfs.length ∧
        (ps.map Prod.fst).Pairwise (fun a b => strLe a b = true) ∧
        dget m "airports" = some (.arr (ps.map (fun kv =>
          JValue.obj (minimalEntry kv.1 (posixJoin (immutableRel kv.2)) kv.2))))) ∧
    (∀ tf tas fs' m, dget tf "airports" = some (.arr tas) →
      build_manifest pdfs site_root fs base_url (some (.obj tf)) nowIso = .ok (fs', m) →
      dget m "airports" =
        some (.arr ((tas.filterMap (templateEntryOf pdfs)).map .obj))) := by
  constructor
  · intro fs' m h
    obtain ⟨outs, hba, ha, -, -, -⟩ := build_manifest_fields h
    refine ⟨sortLe keyLe pdfs, sortLe_perm keyLe pdfs,
      (sortLe_perm keyLe pdfs).length_eq, ?_, ?_⟩
    · rw [List.pairwise_map]
      exact sortLe_pairwise keyLe (fun a b c h1 h2 => strLe_trans h1 h2)
        (fun a b => strLe_total a.1 b.1) pdfs
    · rw [ha, build_airports_none_snd hba]
      simp [List.map_map, Function.comp]
  · intro tf tas fs' m hta h
    obtain ⟨outs, hba, ha, -, -, -⟩ := build_manifest_fields h
    rw [ha, build_airports_template_snd hta hba]

/-- Witness for C4: the `wFile` scan with a one-entry template whose raw
identifier is lowercase. -/
theorem c4_entry_count_and_order_witness :
    build_manifest [("JFK", mkPdfInfo wFile "JFK")] ["docs"] []
      none (some (.obj [("airports", .arr [.obj [("iata", .str "jfk")]])])) "NOW" =
      .ok ([["docs", "pdfs", "JFK", "H1.pdf"]],
        [("schemaVersion", .int 1), ("generatedAt", .str "NOW"),
         ("airports", .arr (([JValue.obj [("iata", .str "jfk")]].filterMap
           (templateEntryOf [("JFK", mkPdfInfo wFile "JFK")])).map .obj))]) ∧
    dget [("schemaVersion", JValue.int 1), ("generatedAt", JValue.str "NOW"),
          ("airports", JValue.arr (([JValue.obj [("iata", JValue.str "jfk")]].filterMap
            (templateEntryOf [("JFK", mkPdfInfo wFile "JFK")])).map JValue.obj))] "airports" =
      some (.arr (([JValue.obj [("iata", JValue.str "jfk")]].filterMap
        (templateEntryOf [("JFK", mkPdfInfo wFile "JFK")])).map .obj)) := by
  refine ⟨rfl, ?_⟩
  exact (c4_entry_count_and_order [("JFK", mkPdfInfo wFile "JFK")] ["docs"] [] none "NOW").2
    [("airports", .arr [.obj [("iata", .str "jfk")]])]
    [.obj [("iata", .str "jfk")]] [["docs", "pdfs", "JFK", "H1.pdf"]] _ rfl rfl

/-- **C5** A template entry whose normalized identifier has no scanned
record is skipped — it never appears in the output manifest, and every
entry that does appear carries an identifier with a scanned record. -/
theorem c5_unmatched_template_entries_dropped (pdfs : List (String × PdfInfo)) :
    (∀ ad : JObj, alookup pdfs (templateIata ad) = none →
      templateEntryOf pdfs (.obj ad) = none) ∧
    (∀ (site_root : List String) (fs fs' : List (List String)) (base_url : Option String)
        (nowIso : String) (tf : JObj) (tas : List JValue) (m : JObj) (l : List JValue),
      dget tf "airports" = some (.arr tas) →
      build_manifest pdfs site_root fs base_url (some (.obj tf)) nowIso = .ok (fs', m) →
      dget m "airports" = some (.arr l) →
      ∀ x ∈ l, ∃ e i info, x = JValue.obj e ∧ dget e "iata" = some (.str i) ∧
        alookup pdfs i = some info) := by
  constructor
  · intro ad h
    exact templateEntryOf_none_of_unmatched h
  · intro site_root fs fs' base_url nowIso tf tas m l hta h hl
    obtain ⟨outs, hba, ha, -, -, -⟩ := build_manifest_fields h
    rw [ha] at hl
    have hl' : l = outs.map JValue.obj := by
      have := Option.some.inj hl
      cases this
      rfl
    subst hl'
    intro x hx
    obtain ⟨e, he, hex⟩ := List.mem_map.mp hx
    rw [build_airports_template_snd hta hba] at he
    obtain ⟨a, -, hsome⟩ := List.mem_filterMap.mp he
    obtain ⟨ad, info, -, -, hfound, hent⟩ := templateEntryOf_some hsome
    refine ⟨e, templateIata ad, info, hex.symm, ?_, hfound⟩
    rw [hent, dget_dset_ne _ _ _ _ (by decide), dget_normalize_iata]

/-- Witness for C5: a template naming `ZZZ` (no scanned file) produces no
entry, and in a built manifest every entry's identifier is backed by a
scanned record. -/
theorem c5_unmatched_template_entries_dropped_witness :
    templateEntryOf [("JFK", mkPdfInfo wFile "JFK")] (.obj [("iata", .str "ZZZ")]) = none ∧
    (∃ e i info,
      JValue.obj (dset (normalize_airport_dict [("iata", JValue.str "jfk")] "JFK") "pdf"
          (pdfBlock "pdfs/JFK/H1.pdf" (mkPdfInfo wFile "JFK"))) = JValue.obj e ∧
      dget e "iata" = some (.str i) ∧
      alookup [("JFK", mkPdfInfo wFile "JFK")] i = some info) := by
  constructor
  · exact (c5_unmatched_template_entries_dropped [("JFK", mkPdfInfo wFile "JFK")]).1
      [("iata", .str "ZZZ")] rfl
  · exact (c5_unmatched_template_entries_dropped [("JFK", mkPdfInfo wFile "JFK")]).2
      ["docs"] [] [["docs", "pdfs", "JFK", "H1.pdf"]] none "NOW"
      [("airports", .arr [.obj [("iata", .str "jfk")], .obj [("iata", .str "ZZZ")]])]
      [.obj [("iata", .str "jfk")], .obj [("iata", .str "ZZZ")]]
      _
      [JValue.obj (dset (normalize_airport_dict [("iata", JValue.str "jfk")] "JFK") "pdf"
        (pdfBlock "pdfs/JFK/H1.pdf" (mkPdfInfo wFile "JFK")))]
      rfl rfl rfl _ (by simp)


/-- **C6** For matched template entries, normalization fills only the
missing descriptive fields (`icao` and `name` default to the identifier,
`city` to the empty string) and never overwrites a field the template
supplies; attaching the `pdf` block afterwards changes no other field. -/
theorem c6_defaults_fill_only_missing (ad : JObj) (iata : String) (b : JValue) :
    (dget ad "icao" = none →
      dget (normalize_airport_dict ad iata) "icao" = some (.str iata)) ∧
    (∀ v, dget ad "icao" = some v →
      dget (normalize_airport_dict ad iata) "icao" = some v) ∧
    (dget ad "name" = none →
      dget (normalize_airport_dict ad iata) "name" = some (.str iata)) ∧
    (∀ v, dget ad "name" = some v →
      dget (normalize_airport_dict ad iata) "name" = some v) ∧
    (dget ad "city" = none →
      dget (normalize_airport_dict ad iata) "city" = some (.str "")) ∧
    (∀ v, dget ad "city" = some v →
      dget (normalize_airport_dict ad iata) "city" = some v) ∧
    (∀ k, k ≠ "pdf" →
      dget (dset (normalize_airport_dict ad iata) "pdf" b) k =
        dget (normalize_airport_dict ad iata) k) := by
  have hicao : dget (normalize_airport_dict ad iata) "icao" =
      dget (dsetdefault (dset ad "iata" (.str iata)) "icao" (.str iata)) "icao" := by
    unfold normalize_airport_dict
    rw [dget_dsetdefault_ne _ _ _ _ (by decide), dget_dsetdefault_ne _ _ _ _ (by decide)]
  have hicao0 : dget (dset ad "iata" (.str iata)) "icao" = dget ad "icao" :=
    dget_dset_ne _ _ _ _ (by decide)
  have hname : dget (normalize_airport_dict ad iata) "name" =
      dget (dsetdefault (dsetdefault (dset ad "iata" (.str iata)) "icao" (.str iata))
        "name" (.str iata)) "name" := by
    unfold normalize_airport_dict
    rw [dget_dsetdefault_ne _ _ _ _ (by decide)]
  have hname0 : dget (dsetdefault (dset ad "iata" (.str iata)) "icao" (.str iata)) "name" =
      dget ad "name" := by
    rw [dget_dsetdefault_ne _ _ _ _ (by decide), dget_dset_ne _ _ _ _ (by decide)]
  have hcity0 : dget (dsetdefault (dsetdefault (dset ad "iata" (.str iata)) "icao" (.str iata))
      "name" (.str iata)) "city" = dget ad "city" := by
    rw [dget_dsetdefault_ne _ _ _ _ (by decide), dget_dsetdefault_ne _ _ _ _ (by decide),
        dget_dset_ne _ _ _ _ (by decide)]
  refine ⟨?_, ?_, ?_, ?_, ?_, ?_, ?_⟩
  · intro h
    rw [hicao]
    exact dget_dsetdefault_self_of_none _ (by rw [hicao0]; exact h)
  · intro v h
    rw [hicao, dsetdefault_of_isSome _ (by rw [hicao0, h]; rfl), hicao0]
    exact h
  · intro h
    rw [hname]
    exact dget_dsetdefault_self_of_none _ (by rw [hname0]; exact h)
  · intro v h
    rw [hname, dsetdefault_of_isSome _ (by rw [hname0, h]; rfl), hname0]
    exact h
  · intro h
    show dget (dsetdefault _ "city" (.str "")) "city" = _
    exact dget_dsetdefault_self_of_none _ (by rw [hcity0]; exact h)
  · intro v h
    show dget (dsetdefault _ "city" (.str "")) "city" = _
    rw [dsetdefault_of_isSome _ (by rw [hcity0, h]; rfl), hcity0]
    exact h
  · intro k hk
    exact dget_dset_ne _ _ _ _ hk

/-- Witness for C6: a template entry supplying `name` but not `icao` keeps
its `name`, receives the default `icao`, and attaching `pdf` leaves `name`
untouched. -/
theorem c6_defaults_fill_only_missing_witness :
    dget (normalize_airport_dict [("iata", JValue.str "x"), ("name", JValue.str "Custom")]
      "JFK") "icao" = some (.str "JFK") ∧
    dget (normalize_airport_dict [("iata", JValue.str "x"), ("name", JValue.str "Custom")]
      "JFK") "name" = some (.str "Custom") ∧
    dget (dset (normalize_airport_dict [("iata", JValue.str "x"), ("name", JValue.str "Custom")]
      "JFK") "pdf" JValue.null) "name" =
      dget (normalize_airport_dict [("iata", JValue.str "x"), ("name", JValue.str "Custom")]
        "JFK") "name" := by
  have h := c6_defaults_fill_only_missing
    [("iata", JValue.str "x"), ("name", JValue.str "Custom")] "JFK" JValue.null
  exact ⟨h.1 rfl, h.2.2.2.1 (JValue.str "Custom") rfl, h.2.2.2.2.2.2 "name" (by decide)⟩

/-- **C10** Every output manifest entry's `iata` field is the normalized
(stripped, uppercased) identifier of a scanned record: the template branch
overwrites whatever raw `iata` the template supplied with the normalized
value, which must have a scanned record, and every scan-map key is the
normalization of some scanned filename stem. -/
theorem c10_entry_identifier_is_normalized (pdfs : List (String × PdfInfo)) :
    (∀ (ad : JObj) (e : JObj), templateEntryOf pdfs (.obj ad) = some e →
      dget e "iata" =
        some (.str (pyUpper (pyStrip (pyStr ((dget ad "iata").getD (.str "")))))) ∧
      (alookup pdfs
        (pyUpper (pyStrip (pyStr ((dget ad "iata").getD (.str "")))))).isSome = true) ∧
    (∀ (files : List FileEntry) (m : List (String × PdfInfo)) (k : String) (v : PdfInfo),
      scan_pdfs (some files) = .ok m → (k, v) ∈ m →
      ∃ f ∈ files, k = safe_iata_from_filename f.stem) := by
  constructor
  · intro ad e h
    obtain ⟨ad', info, hobj, -, hfound, hent⟩ := templateEntryOf_some h
    have had : ad' = ad := (JValue.obj.inj hobj).symm
    subst had
    constructor
    · rw [hent, dget_dset_ne _ _ _ _ (by decide), dget_normalize_iata]
      rfl
    · show (alookup pdfs (templateIata ad')).isSome = true
      rw [hfound]
      rfl
  · intro files m k v hscan hmem
    obtain ⟨hm, -⟩ := scan_pdfs_ok hscan
    rw [hm] at hmem
    rcases scanFold_mem hmem with habs | ⟨-, f, hfl, -, hstem, -⟩
    · simp at habs
    · exact ⟨f, (sortLe_perm pathLe files).mem_iff.mp hfl, hstem.symm⟩

/-- Witness for C10: a template entry with raw identifier `" jfk "` yields
an output entry whose `iata` is the normalized `"JFK"`, backed by the scan
of `wFile`. -/
theorem c10_entry_identifier_is_normalized_witness :
    templateEntryOf [("JFK", mkPdfInfo wFile "JFK")] (.obj [("iata", .str " jfk ")]) =
      some (dset (normalize_airport_dict [("iata", JValue.str " jfk ")] "JFK") "pdf"
        (pdfBlock "pdfs/JFK/H1.pdf" (mkPdfInfo wFile "JFK"))) ∧
    dget (dset (normalize_airport_dict [("iata", JValue.str " jfk ")] "JFK") "pdf"
        (pdfBlock "pdfs/JFK/H1.pdf" (mkPdfInfo wFile "JFK"))) "iata" =
      some (.str (pyUpper (pyStrip (pyStr
        ((dget [("iata", JValue.str " jfk ")] "iata").getD (.str "")))))) ∧
    (∃ f ∈ [wFile], "JFK" = safe_iata_from_filename f.stem) := by
  have h1 := (c10_entry_identifier_is_normalized [("JFK", mkPdfInfo wFile "JFK")]).1
    [("iata", JValue.str " jfk ")]
    (dset (normalize_airport_dict [("iata", JValue.str " jfk ")] "JFK") "pdf"
      (pdfBlock "pdfs/JFK/H1.pdf" (mkPdfInfo wFile "JFK"))) rfl
  have h2 := (c10_entry_identifier_is_normalized [("JFK", mkPdfInfo wFile "JFK")]).2
    [wFile] [("JFK", mkPdfInfo wFile "JFK")] "JFK" (mkPdfInfo wFile "JFK") rfl (by simp)
  exact ⟨rfl, h1.1, h2⟩

end ABGViewer
